import Mathlib

/-!
# Verification of the lifeispuzzle constraint-puzzle solver

Shallow embedding of the board model, the constraint rules and the solve
driver of the repository.  Boards are `size × size` grids of integer cells
with `(size+1) × size` horizontal edges and `size × (size+1)` vertical edges;
a symbolic board allocates one solver variable per position and rules emit
constraints over those variables.  An assignment (a Z3 model restricted to
the board's variables) is embedded as functions `Nat → Nat → Int` giving the
value of the cell / edge / dist variable at each position, and each rule's
emitted constraint list is embedded as the conjunction of the constraints it
pushes, with the source's exact index ranges and guards.
-/

/-- Concrete board (src/states.ts `BoardState`): `size`, an `N×N` cell
matrix, an `(N+1)×N` horizontal-edge matrix and an `N×(N+1)` vertical-edge
matrix, all integer valued. -/
structure BoardState where
  size : Nat
  cells : List (List Int)
  horizontalEdges : List (List Int)
  verticalEdges : List (List Int)
  deriving Repr, DecidableEq

/-- Total lookup into a nested list matrix, `0` out of range (the source
indexes only in range on well-formed boards). -/
def matGet (m : List (List Int)) (r c : Nat) : Int :=
  (m.getD r []).getD c 0

/-- Length of row `r` of a nested list matrix. -/
def rowLen (m : List (List Int)) (r : Nat) : Nat :=
  (m.getD r []).length

/-- An assignment of integer values to the symbolic board's variables:
`cells r c` is the value of variable `c-r-c`, `hE r c` of `he-r-c`,
`vE r c` of `ve-r-c`. -/
structure Assign where
  cells : Nat → Nat → Int
  hE : Nat → Nat → Int
  vE : Nat → Nat → Int

/-- `createGivenValuesRule` (src/rules/helpers.ts): for each `row, col`
below `size` with a nonzero input cell, pin the cell variable to that
value. -/
def GivenValuesRuleHolds (B : BoardState) (cells : Nat → Nat → Int) : Prop :=
  ∀ row < B.size, ∀ col < B.size,
    matGet B.cells row col ≠ 0 → cells row col = matGet B.cells row col

instance (B : BoardState) (cells : Nat → Nat → Int) :
    Decidable (GivenValuesRuleHolds B cells) := by
  unfold GivenValuesRuleHolds; infer_instance

/-- `createGivenEdgesRule` (src/rules/helpers.ts, nonzero-pinning revision,
also src/rules.ts): for each horizontal and vertical edge position of the
input board holding a nonzero value, pin the edge variable to that value. -/
def GivenEdgesRuleHolds (B : BoardState) (hE vE : Nat → Nat → Int) : Prop :=
  (∀ row < B.horizontalEdges.length, ∀ col < rowLen B.horizontalEdges row,
      matGet B.horizontalEdges row col ≠ 0 →
        hE row col = matGet B.horizontalEdges row col) ∧
  (∀ row < B.verticalEdges.length, ∀ col < rowLen B.verticalEdges row,
      matGet B.verticalEdges row col ≠ 0 →
        vE row col = matGet B.verticalEdges row col)

instance (B : BoardState) (hE vE : Nat → Nat → Int) :
    Decidable (GivenEdgesRuleHolds B hE vE) := by
  unfold GivenEdgesRuleHolds; infer_instance

/-- Degree of lattice vertex `(p, q)` as accumulated by
`VertexDegreeRule` (src/rules/VertexDegreeRule.ts): every horizontal edge
`(r, c)` adds its variable to vertices `(r, c)` and `(r, c+1)`, every
vertical edge `(r, c)` to vertices `(r, c)` and `(r+1, c)`.  This is the
per-vertex closed form of that accumulation: vertex `(p, q)` receives the
horizontal edges `(p, q-1)` (when `1 ≤ q`) and `(p, q)` (when `q < N`,
the row length), and the vertical edges `(p-1, q)` (when `1 ≤ p`) and
`(p, q)` (when `p < N`, the number of vertical-edge rows). -/
def vertexDegree (N : Nat) (hE vE : Nat → Nat → Int) (p q : Nat) : Int :=
  (if 1 ≤ q then hE p (q - 1) else 0) +
  (if q < N then hE p q else 0) +
  (if 1 ≤ p then vE (p - 1) q else 0) +
  (if p < N then vE p q else 0)

/-- `VertexDegreeRule.getConstraints`: for every lattice vertex of the
`(N+1) × (N+1)` grid, its degree equals `0` or `2`. -/
def VertexDegreeRuleHolds (N : Nat) (hE vE : Nat → Nat → Int) : Prop :=
  ∀ p < N + 1, ∀ q < N + 1,
    vertexDegree N hE vE p q = 0 ∨ vertexDegree N hE vE p q = 2

instance (N : Nat) (hE vE : Nat → Nat → Int) :
    Decidable (VertexDegreeRuleHolds N hE vE) := by
  unfold VertexDegreeRuleHolds; infer_instance

/-- The guarded incident-edge sum of `isDegree2`
(src/rules/AllEdgesInLoopRule.ts): up edge `verticalEdges[p-1][q]`, down
edge `verticalEdges[p][q]`, left edge `horizontalEdges[p][q-1]`, right edge
`horizontalEdges[p][q]`, each present only when the source's bounds checks
on the edge matrices (of shape `(N+1)×N` horizontal, `N×(N+1)` vertical)
pass; absent edges contribute `0`. -/
def adjEdgeSum (N : Nat) (hE vE : Nat → Nat → Int) (p q : Nat) : Int :=
  (if 0 < p ∧ p - 1 < N ∧ q < N + 1 then vE (p - 1) q else 0) +
  (if p < N ∧ q < N + 1 then vE p q else 0) +
  (if p < N + 1 ∧ 0 < q ∧ q - 1 < N then hE p (q - 1) else 0) +
  (if p < N + 1 ∧ q < N then hE p q else 0)

/-- `isDegree2` returns `false` when the vertex has no admissible incident
edge; this mirrors the source's emptiness check on its `adjacentEdges`
list. -/
def hasAdjEdge (N : Nat) (p q : Nat) : Prop :=
  (0 < p ∧ p - 1 < N ∧ q < N + 1) ∨ (p < N ∧ q < N + 1) ∨
  (p < N + 1 ∧ 0 < q ∧ q - 1 < N) ∨ (p < N + 1 ∧ q < N)

/-- `isDegree2` (src/rules/AllEdgesInLoopRule.ts): the vertex has at least
one admissible incident edge and their sum equals `2`. -/
def isDegree2 (N : Nat) (hE vE : Nat → Nat → Int) (p q : Nat) : Prop :=
  hasAdjEdge N p q ∧ adjEdgeSum N hE vE p q = 2

instance (N : Nat) (p q : Nat) : Decidable (hasAdjEdge N p q) := by
  unfold hasAdjEdge; infer_instance

instance (N : Nat) (hE vE : Nat → Nat → Int) (p q : Nat) :
    Decidable (isDegree2 N hE vE p q) := by
  unfold isDegree2; infer_instance

/-- `hasEdgeBetween` (src/rules/AllEdgesInLoopRule.ts): vertices at
Manhattan distance other than `1` are never connected; horizontally
adjacent vertices are connected when the horizontal edge between them (at
the smaller column) is `1`, vertically adjacent ones when the vertical edge
between them (at the smaller row) is `1`; out-of-bounds lookups fall
through to `false`. -/
def hasEdgeBetween (N : Nat) (hE vE : Nat → Nat → Int)
    (p1 q1 p2 q2 : Nat) : Prop :=
  if (max p1 p2 - min p1 p2) + (max q1 q2 - min q1 q2) ≠ 1 then False
  else if p1 = p2 then
    if p1 < N + 1 ∧ min q1 q2 < N then hE p1 (min q1 q2) = 1 else False
  else if q1 = q2 then
    if min p1 p2 < N ∧ q1 < N + 1 then vE (min p1 p2) q1 = 1 else False
  else False

instance (N : Nat) (hE vE : Nat → Nat → Int) (p1 q1 p2 q2 : Nat) :
    Decidable (hasEdgeBetween N hE vE p1 q1 p2 q2) := by
  unfold hasEdgeBetween; infer_instance

/-- `getNeighbors` (src/rules/AllEdgesInLoopRule.ts): the lattice
neighbours of `(p, q)` in the order up, down, left, right, bounded by the
board size. -/
def getNeighbors (N : Nat) (p q : Nat) : List (Nat × Nat) :=
  (if 0 < p then [(p - 1, q)] else []) ++
  (if p < N then [(p + 1, q)] else []) ++
  (if 0 < q then [(p, q - 1)] else []) ++
  (if q < N then [(p, q + 1)] else [])

/-- The parent/child/loop-closure disjunction of `SingleLoopRule`
(src/rules/SingleLoopRule.ts, constraint 3): some neighbour of `(p, q)`
within the `0..N` vertex range is connected by an active edge, is itself
degree 2, and is a parent (`dist` one less), a child (`dist` one more), or
forms the loop-closure special case (one of the two vertices has `dist 0`
and the other positive `dist`). -/
def parentChildOk (N : Nat) (hE vE dist : Nat → Nat → Int) (p q : Nat) : Prop :=
  ∃ nb ∈ getNeighbors N p q,
    nb.1 ≤ N ∧ nb.2 ≤ N ∧
    hasEdgeBetween N hE vE p q nb.1 nb.2 ∧
    isDegree2 N hE vE nb.1 nb.2 ∧
    (dist nb.1 nb.2 = dist p q - 1 ∨
     dist nb.1 nb.2 = dist p q + 1 ∨
     (dist p q = 0 ∧ dist nb.1 nb.2 > 0) ∨
     (dist nb.1 nb.2 = 0 ∧ dist p q > 0))

instance (N : Nat) (hE vE dist : Nat → Nat → Int) (p q : Nat) :
    Decidable (parentChildOk N hE vE dist p q) := by
  unfold parentChildOk; infer_instance

/-- The `rootCount` sum of `SingleLoopRule`: over all `(N+1)²` vertices,
add `1` when the vertex is degree 2 with `dist = 0`, else `0`. -/
def rootCount (N : Nat) (hE vE dist : Nat → Nat → Int) : Int :=
  ∑ p ∈ Finset.range (N + 1), ∑ q ∈ Finset.range (N + 1),
    if isDegree2 N hE vE p q ∧ dist p q = 0 then (1 : Int) else 0

/-- The `hasDeg2Vertex` disjunction of `SingleLoopRule`: some vertex of
the `0..N` range is degree 2. -/
def hasDeg2Vertex (N : Nat) (hE vE : Nat → Nat → Int) : Prop :=
  ∃ p < N + 1, ∃ q < N + 1, isDegree2 N hE vE p q

instance (N : Nat) (hE vE : Nat → Nat → Int) :
    Decidable (hasDeg2Vertex N hE vE) := by
  unfold hasDeg2Vertex; infer_instance

/-- The `totalEdges` sum of `SingleLoopRule`: all horizontal edges
(`(N+1)` rows of `N`) plus all vertical edges (`N` rows of `N+1`). -/
def totalEdges (N : Nat) (hE vE : Nat → Nat → Int) : Int :=
  (∑ p ∈ Finset.range (N + 1), ∑ q ∈ Finset.range N, hE p q) +
  (∑ p ∈ Finset.range N, ∑ q ∈ Finset.range (N + 1), vE p q)

/-- `SingleLoopRule.getConstraints` (src/rules/SingleLoopRule.ts, the
distance-labeling revision): one `dist` variable per lattice vertex with
(1) range `[-1, 2·(N+1)]`, (2) `dist = -1` off loop (vertices not of
degree 2), (3) exactly one root (`dist 0` among degree-2 vertices) when a
degree-2 vertex exists and none otherwise, (4) the parent/child adjacency
constraint for every vertex that has neighbours, and (5) at least 4 active
edges when a degree-2 vertex exists. -/
def SingleLoopRuleHolds (N : Nat) (hE vE dist : Nat → Nat → Int) : Prop :=
  (∀ p < N + 1, ∀ q < N + 1, -1 ≤ dist p q ∧ dist p q ≤ (N + 1) * 2) ∧
  (∀ p < N + 1, ∀ q < N + 1, ¬ isDegree2 N hE vE p q → dist p q = -1) ∧
  (hasDeg2Vertex N hE vE → rootCount N hE vE dist = 1) ∧
  (¬ hasDeg2Vertex N hE vE → rootCount N hE vE dist = 0) ∧
  (∀ p < N + 1, ∀ q < N + 1, getNeighbors N p q ≠ [] →
      (isDegree2 N hE vE p q → parentChildOk N hE vE dist p q)) ∧
  (hasDeg2Vertex N hE vE → totalEdges N hE vE ≥ 4)

instance (N : Nat) (hE vE dist : Nat → Nat → Int) :
    Decidable (SingleLoopRuleHolds N hE vE dist) := by
  unfold SingleLoopRuleHolds
  repeat apply instDecidableAnd

/-- The guarded surrounding-edge sum of `NumberConstraintRule`
(src/rules/NumberConstraintRule.ts): horizontal edge above
(`horizontalEdges[row][col]`), horizontal edge below
(`horizontalEdges[row+1][col]`), vertical edge left
(`verticalEdges[row][col]`), vertical edge right
(`verticalEdges[row][col+1]`), each present only when the source's bounds
checks on the `(N+1)×N` horizontal and `N×(N+1)` vertical matrices pass. -/
def cellEdgeSum (N : Nat) (hE vE : Nat → Nat → Int) (row col : Nat) : Int :=
  (if row < N + 1 ∧ col < N then hE row col else 0) +
  (if row + 1 < N + 1 ∧ col < N then hE (row + 1) col else 0) +
  (if row < N ∧ col < N + 1 then vE row col else 0) +
  (if row < N ∧ col + 1 < N + 1 then vE row (col + 1) else 0)

/-- Whether `NumberConstraintRule` finds at least one candidate edge for
cell `(row, col)`; only then does it push the cell's constraint. -/
def cellHasEdge (N : Nat) (row col : Nat) : Prop :=
  (row < N + 1 ∧ col < N) ∨ (row + 1 < N + 1 ∧ col < N) ∨
  (row < N ∧ col < N + 1) ∨ (row < N ∧ col + 1 < N + 1)

/-- `NumberConstraintRule.getConstraints`: for every cell of the `N×N`
grid with at least one candidate edge, if the cell value is positive then
the surrounding-edge sum equals the cell value. -/
def NumberConstraintRuleHolds (N : Nat) (cells hE vE : Nat → Nat → Int) : Prop :=
  ∀ row < N, ∀ col < N, cellHasEdge N row col →
    0 < cells row col → cellEdgeSum N hE vE row col = cells row col

/-- A symbolic-board variable (src/states.ts `createBoardVariable`): one
fresh integer variable per matrix position, with the deterministic
collision-free names `c-{row}-{col}`, `he-{row}-{col}`, `ve-{row}-{col}`
represented by the three constructors. -/
inductive ZVar where
  | cell (r c : Nat)
  | hEdge (r c : Nat)
  | vEdge (r c : Nat)
  deriving Repr, DecidableEq

/-- Symbolic board (src/states.ts `BoardVariable`): the same shape as
`BoardState` with a variable in every cell/edge slot. -/
structure BoardVariable where
  size : Nat
  cells : List (List ZVar)
  horizontalEdges : List (List ZVar)
  verticalEdges : List (List ZVar)
  deriving Repr, DecidableEq

/-- `createBoardVariable` (src/states.ts): map every position of every
matrix of the input board to its variable, keeping the matrices' shapes. -/
def createBoardVariable (B : BoardState) : BoardVariable where
  size := B.size
  cells := B.cells.mapIdx fun r row => row.mapIdx fun c _ => ZVar.cell r c
  horizontalEdges :=
    B.horizontalEdges.mapIdx fun r row => row.mapIdx fun c _ => ZVar.hEdge r c
  verticalEdges :=
    B.verticalEdges.mapIdx fun r row => row.mapIdx fun c _ => ZVar.vEdge r c

/-- `boardVariableToState` (src/states.ts): evaluate every variable in the
model and convert to an integer.  The source computes
`parseInt(model.eval(v).toString())`; a Z3 model of an integer variable
prints as a decimal integer and `parseInt` of a decimal integer string is
that integer, so the composition is the model's integer value and the
model is embedded directly as an `Int`-valued valuation. -/
def boardVariableToState (bv : BoardVariable) (model : ZVar → Int) : BoardState where
  size := bv.size
  cells := bv.cells.map (List.map model)
  horizontalEdges := bv.horizontalEdges.map (List.map model)
  verticalEdges := bv.verticalEdges.map (List.map model)

/-- A semantic rule: `getConstraints` of a `Rule` (src/rules/types.ts)
depends on the symbolic board (determined by the input board) and, for the
closure-created given rules, on the input board's values; its emitted
constraint list denotes a predicate on assignments. -/
def SemRule : Type :=
  BoardState → Assign → Prop

/-- The implicit rule `createGivenValuesRule(input.initialBoard)` added by
the driver, as a semantic rule. -/
def givenValuesSemRule : SemRule :=
  fun B a => GivenValuesRuleHolds B a.cells

/-- The given-edges rule of src/rules.ts / src/rules/helpers.ts as a
semantic rule (for stating what the driver does and does not add). -/
def givenEdgesSemRule : SemRule :=
  fun B a => GivenEdgesRuleHolds B a.hE a.vE

/-- The rule list assembled by `PuzzleSolver.solve` and
`PuzzleSolver.solveMultiple` (src/solver.ts):
`allRules = [...input.rules, givenValuesRule]`. -/
def assembledRules (rules : List SemRule) : List SemRule :=
  rules ++ [givenValuesSemRule]

/-- The constraint set asserted by the driver holds of an assignment: every
rule of the assembled list is satisfied (the driver concatenates each
rule's `getConstraints` output and asserts every constraint). -/
def assembledHold (B : BoardState) (rules : List SemRule) (a : Assign) : Prop :=
  ∀ r ∈ assembledRules rules, r B a

/-- Outcome of one `solver.check()` call of the external solver. -/
inductive CheckResult where
  | sat
  | unsat
  | unknown
  deriving Repr, DecidableEq

/-- Driver result (src/solver.ts `SolverResult`), with the solution type
abstract; `executionTime` (wall clock) and `constraintCount` are outside
the scope of the claims and omitted. -/
structure SolverResultM (α : Type) where
  status : String
  solution : Option α
  solutions : Option (List α)
  error : Option String
  deriving Repr, DecidableEq

/-- The `check()` branch of `PuzzleSolver.solve` (src/solver.ts:81-103):
`sat` extracts a solution, `unsat` returns no solution, anything else
(Z3 `unknown`) returns status `timeout`. -/
def solveResult {α : Type} (r : CheckResult) (extracted : α) : SolverResultM α :=
  match r with
  | .sat => { status := "sat", solution := some extracted, solutions := none, error := none }
  | .unsat => { status := "unsat", solution := none, solutions := none, error := none }
  | .unknown => { status := "timeout", solution := none, solutions := none, error := none }

/-- The enumeration loop of `PuzzleSolver.solveMultiple`
(src/solver.ts:139-157): starting at call index `i` with `fuel` remaining
iterations, call `check`; on `sat` extract the model's solution and
continue, on anything else break.  `check i` is the result of the `i`-th
`check()` call and `extract i` the board extracted from the `i`-th model;
the exclusion constraints the loop asserts constrain which models the
solver may return but not the loop's shape, so they appear in the
soundness hypotheses of the theorems, not here. -/
def collectGo {α : Type} (check : Nat → CheckResult) (extract : Nat → α) :
    Nat → Nat → List α
  | _, 0 => []
  | i, fuel + 1 =>
    match check i with
    | .sat => extract i :: collectGo check extract (i + 1) fuel
    | _ => []

/-- The solution list collected by `solveMultiple` with limit `limit`. -/
def collected {α : Type} (check : Nat → CheckResult) (extract : Nat → α)
    (limit : Nat) : List α :=
  collectGo check extract 0 limit

/-- The return of `PuzzleSolver.solveMultiple` (src/solver.ts:159-175):
status `sat` with `solution = solutions[0]` when at least one solution was
collected, else status `unsat` with no solution fields. -/
def solveMultipleResult {α : Type} (check : Nat → CheckResult)
    (extract : Nat → α) (limit : Nat) : SolverResultM α :=
  let sols := collected check extract limit
  if 0 < sols.length then
    { status := "sat", solution := sols.head?, solutions := some sols, error := none }
  else
    { status := "unsat", solution := none, solutions := none, error := none }

/-- A JavaScript thrown value: an `Error` object carrying a message, or
any other value (whose string conversion the catch block uses). -/
inductive JsError where
  | errObj (message : String)
  | nonError (str : String)
  deriving Repr, DecidableEq

/-- The message the catch blocks of `solve` and `solveMultiple` store:
`error instanceof Error ? error.message : String(error)`. -/
def errMessage : JsError → String
  | .errObj m => m
  | .nonError s => s

/-- The try/catch wrapper shared by `PuzzleSolver.solve`
(src/solver.ts:57-111) and `PuzzleSolver.solveMultiple`
(src/solver.ts:121-183): the whole body — context initialization, board
materialization, constraint construction, checking, extraction — runs
inside `try`; a normal completion is returned as is, a thrown value is
converted to a `status: "error"` result carrying the message. -/
def solveDriver {α : Type} (body : Except JsError (SolverResultM α)) :
    SolverResultM α :=
  match body with
  | .ok r => r
  | .error e =>
    { status := "error", solution := none, solutions := none,
      error := some (errMessage e) }

/-- The exclusion constraint `solveMultiple` asserts after finding a
solution (src/solver.ts:149-156): the flattened cell-variable list, where
flat index `idx` denotes cell `(idx / size, idx % size)`, must differ from
the just-found solution's cells in at least one position
(`ctx.Or` of the per-cell disequalities). -/
def exclusionHolds (size : Nat) (m prev : Nat → Nat → Int) : Prop :=
  ∃ idx < size * size, m (idx / size) (idx % size) ≠ prev (idx / size) (idx % size)

/-! ## Fixtures -/

/-- The 2×2 perimeter assignment of spec §8 scenario 6: horizontal-edge
rows `0` and `2` (the top and bottom of the grid) carry `1`, the middle
row `0`; vertical-edge columns `0` and `2` carry `1`, the middle column
`0`. -/
def perimH : Nat → Nat → Int := fun p _ => if p = 0 ∨ p = 2 then 1 else 0

/-- Vertical part of the 2×2 perimeter assignment. -/
def perimV : Nat → Nat → Int := fun _ q => if q = 0 ∨ q = 2 then 1 else 0

/-- The 3×3 two-disjoint-loops fixture of the `SingleLoopRule` test
(src/rules/SingleLoopRule.ts, "should be violated with multiple
disconnected loops"): given edges pre-wiring a shape in the top-left and a
unit square in the bottom-right. -/
def twoLoopsBoard : BoardState where
  size := 3
  cells := [[0, 0, 0], [0, 0, 0], [0, 0, 0]]
  horizontalEdges := [[1, 1, 0], [0, 0, 0], [0, 0, 1], [0, 0, 1]]
  verticalEdges := [[1, 1, 0, 0], [1, 1, 0, 0], [0, 0, 1, 1]]

/-! ## Claims -/

/-- **C4** — For a 2×2 board, the constraints of `VertexDegreeRule` are
satisfiable under the pinning that sets the 8 perimeter edges
(horizontal-edge rows 0 and 2, vertical-edge columns 0 and 2) to `1` and
the 4 inner cross edges (horizontal-edge row 1, vertical-edge column 1) to
`0`: the pinned assignment itself satisfies every vertex-degree
constraint, i.e. every lattice vertex's incident edge sum is `0` or `2`
under the incidence in which `horizontalEdges[r][c]` connects `(r,c)` to
`(r,c+1)` and `verticalEdges[r][c]` connects `(r,c)` to `(r+1,c)`. -/
theorem vertexDegreeRule_perimeter_sat :
    (∀ q < 2, perimH 0 q = 1 ∧ perimH 2 q = 1 ∧ perimH 1 q = 0) ∧
    (∀ p < 2, perimV p 0 = 1 ∧ perimV p 2 = 1 ∧ perimV p 1 = 0) ∧
    VertexDegreeRuleHolds 2 perimH perimV := by
  refine ⟨by decide, by decide, ?_⟩
  decide

/-- For a cell inside the `N×N` grid, every one of the four candidate
edges of `NumberConstraintRule` passes its bounds check, so the guarded
sum is the plain sum of the four surrounding edges. -/
theorem cellEdgeSum_inside (N : Nat) (hE vE : Nat → Nat → Int) (row col : Nat)
    (hr : row < N) (hc : col < N) :
    cellEdgeSum N hE vE row col =
      hE row col + hE (row + 1) col + vE row col + vE row (col + 1) := by
  unfold cellEdgeSum
  rw [if_pos ⟨Nat.lt_succ_of_lt hr, hc⟩, if_pos ⟨Nat.succ_lt_succ hr, hc⟩,
    if_pos ⟨hr, Nat.lt_succ_of_lt hc⟩, if_pos ⟨hr, Nat.succ_lt_succ hc⟩]

/-- Every cell inside the grid has at least one candidate edge. -/
theorem cellHasEdge_inside (N : Nat) (row col : Nat)
    (hr : row < N) (hc : col < N) : cellHasEdge N row col :=
  Or.inl ⟨Nat.lt_succ_of_lt hr, hc⟩

/-- **C6** — An assignment satisfies the clue rule
(`NumberConstraintRule`) exactly when every cell of the `N×N` grid holding
a positive value `v` has the sum of its four surrounding edge variables —
horizontal edge above `hE row col`, horizontal edge below `hE (row+1) col`,
vertical edge left `vE row col`, vertical edge right `vE row (col+1)`, all
four always defined on an `N×N` board — equal to `v`.  Cells holding `0`
(or any non-positive value) do not occur on the right-hand side: they
impose no constraint on their surrounding edges. -/
theorem numberConstraintRule_iff (N : Nat) (cells hE vE : Nat → Nat → Int) :
    NumberConstraintRuleHolds N cells hE vE ↔
      ∀ row < N, ∀ col < N, 0 < cells row col →
        hE row col + hE (row + 1) col + vE row col + vE row (col + 1) =
          cells row col := by
  constructor
  · intro h row hr col hc hpos
    rw [← cellEdgeSum_inside N hE vE row col hr hc]
    exact h row hr col hc (cellHasEdge_inside N row col hr hc) hpos
  · intro h row hr col hc _ hpos
    rw [cellEdgeSum_inside N hE vE row col hr hc]
    exact h row hr col hc hpos

/-- **C1** — For the 3×3 two-disjoint-loops fixture, the union of the
constraints of `SingleLoopRule`, `VertexDegreeRule` and the given-edges
rule is unsatisfiable: every assignment of the edge and `dist` variables
violates at least one of the three rules.  (Already the given edges pin
vertex `(0,1)` to degree `3`, which the degree rule forbids.) -/
theorem singleLoop_twoLoops_unsat :
    ∀ hE vE dist : Nat → Nat → Int,
      ¬ GivenEdgesRuleHolds twoLoopsBoard hE vE ∨
      ¬ VertexDegreeRuleHolds 3 hE vE ∨
      ¬ SingleLoopRuleHolds 3 hE vE dist := by
  intro hE vE dist
  by_contra hcon
  push_neg at hcon
  obtain ⟨hG, hD, -⟩ := hcon
  have h1 : hE 0 0 = 1 := by
    simpa [twoLoopsBoard, matGet] using hG.1 0 (by decide) 0 (by decide) (by decide)
  have h2 : hE 0 1 = 1 := by
    simpa [twoLoopsBoard, matGet] using hG.1 0 (by decide) 1 (by decide) (by decide)
  have h3 : vE 0 1 = 1 := by
    simpa [twoLoopsBoard, matGet] using hG.2 0 (by decide) 1 (by decide) (by decide)
  have hdeg := hD 0 (by omega) 1 (by omega)
  have e : vertexDegree 3 hE vE 0 1 = hE 0 0 + hE 0 1 + vE 0 1 := by
    simp [vertexDegree]
  rw [e] at hdeg
  omega

/-- On the `0..N` vertex range the bounds guards of `isDegree2` and of the
`VertexDegreeRule` accumulation agree, so the two incident-edge sums are
equal. -/
theorem adjEdgeSum_eq_vertexDegree (N : Nat) (hE vE : Nat → Nat → Int)
    (p q : Nat) (hp : p ≤ N) (hq : q ≤ N) :
    adjEdgeSum N hE vE p q = vertexDegree N hE vE p q := by
  unfold adjEdgeSum vertexDegree
  have e1 : (0 < p ∧ p - 1 < N ∧ q < N + 1) ↔ 1 ≤ p := by omega
  have e2 : (p < N ∧ q < N + 1) ↔ p < N := by omega
  have e3 : (p < N + 1 ∧ 0 < q ∧ q - 1 < N) ↔ 1 ≤ q := by omega
  have e4 : (p < N + 1 ∧ q < N) ↔ q < N := by omega
  rw [if_congr e1 rfl rfl, if_congr e2 rfl rfl, if_congr e3 rfl rfl,
    if_congr e4 rfl rfl]
  ring

/-- On the `0..N` vertex range, `isDegree2` holds exactly when the
vertex's incident edge sum (as `VertexDegreeRule` computes it) is `2`. -/
theorem isDegree2_iff (N : Nat) (hE vE : Nat → Nat → Int) (p q : Nat)
    (hp : p ≤ N) (hq : q ≤ N) :
    isDegree2 N hE vE p q ↔ vertexDegree N hE vE p q = 2 := by
  unfold isDegree2
  rw [adjEdgeSum_eq_vertexDegree N hE vE p q hp hq]
  constructor
  · rintro ⟨-, h⟩; exact h
  · intro h
    refine ⟨?_, h⟩
    rcases Nat.eq_zero_or_pos N with hN | hN
    · exfalso
      have hp0 : p = 0 := by omega
      have hq0 : q = 0 := by omega
      subst hN hp0 hq0
      simp [vertexDegree] at h
    · unfold hasAdjEdge
      omega

/-- The number of lattice vertices of the `0..N` range whose incident edge
sum is exactly `2` and whose `dist` is `0`. -/
def numRoots (N : Nat) (hE vE dist : Nat → Nat → Int) : Nat :=
  ((Finset.range (N + 1)) ×ˢ (Finset.range (N + 1))).filter
    (fun v => vertexDegree N hE vE v.1 v.2 = 2 ∧ dist v.1 v.2 = 0) |>.card

/-- The `rootCount` indicator sum of `SingleLoopRule` counts exactly the
degree-2, `dist = 0` vertices. -/
theorem rootCount_eq_numRoots (N : Nat) (hE vE dist : Nat → Nat → Int) :
    rootCount N hE vE dist = (numRoots N hE vE dist : Int) := by
  unfold rootCount numRoots
  rw [Finset.card_filter, Finset.sum_product]
  push_cast
  refine Finset.sum_congr rfl fun p hp => Finset.sum_congr rfl fun q hq => ?_
  have hp' : p ≤ N := Nat.lt_succ_iff.mp (Finset.mem_range.mp hp)
  have hq' : q ≤ N := Nat.lt_succ_iff.mp (Finset.mem_range.mp hq)
  rw [if_congr (and_congr_left' (isDegree2_iff N hE vE p q hp' hq')) rfl rfl]

/-- The `hasDeg2Vertex` disjunction of `SingleLoopRule` holds exactly when
some vertex of the `0..N` range has incident edge sum `2`. -/
theorem hasDeg2Vertex_iff (N : Nat) (hE vE : Nat → Nat → Int) :
    hasDeg2Vertex N hE vE ↔
      ∃ p ≤ N, ∃ q ≤ N, vertexDegree N hE vE p q = 2 := by
  unfold hasDeg2Vertex
  constructor
  · rintro ⟨p, hp, q, hq, h⟩
    exact ⟨p, by omega, q, by omega,
      (isDegree2_iff N hE vE p q (by omega) (by omega)).mp h⟩
  · rintro ⟨p, hp, q, hq, h⟩
    exact ⟨p, by omega, q, by omega, (isDegree2_iff N hE vE p q hp hq).mpr h⟩

/-- **C5** — In every assignment satisfying the constraints of
`SingleLoopRule`, the number of lattice vertices that both have degree
exactly `2` and have `dist = 0` is exactly `1` if at least one vertex has
degree `2`, and exactly `0` if no vertex has degree `2`. -/
theorem singleLoopRule_root_uniqueness (N : Nat) (hE vE dist : Nat → Nat → Int)
    (h : SingleLoopRuleHolds N hE vE dist) :
    ((∃ p ≤ N, ∃ q ≤ N, vertexDegree N hE vE p q = 2) →
        numRoots N hE vE dist = 1) ∧
    ((¬ ∃ p ≤ N, ∃ q ≤ N, vertexDegree N hE vE p q = 2) →
        numRoots N hE vE dist = 0) := by
  obtain ⟨-, -, h3, h4, -, -⟩ := h
  constructor
  · intro hex
    have hc := h3 ((hasDeg2Vertex_iff N hE vE).mpr hex)
    rw [rootCount_eq_numRoots] at hc
    exact_mod_cast hc
  · intro hnex
    have hc := h4 fun hd => hnex ((hasDeg2Vertex_iff N hE vE).mp hd)
    rw [rootCount_eq_numRoots] at hc
    exact_mod_cast hc

/-- Witness for C5: the all-zero edge assignment with all `dist = -1` on a
1×1 board satisfies `SingleLoopRule` and has zero roots. -/
theorem singleLoopRule_root_uniqueness_witness :
    SingleLoopRuleHolds 1 (fun _ _ => 0) (fun _ _ => 0) (fun _ _ => -1) ∧
    numRoots 1 (fun _ _ => 0) (fun _ _ => 0) (fun _ _ => -1) = 0 := by
  have hh : SingleLoopRuleHolds 1 (fun _ _ => 0) (fun _ _ => 0)
      (fun _ _ => -1) := by decide
  exact ⟨hh, (singleLoopRule_root_uniqueness 1 _ _ _ hh).2 (by decide)⟩

/-- A 1×1 board whose only given is a nonzero edge
(`horizontalEdges[0][0] = 1`), used to separate the driver's assembled
constraints from the given-edges rule. -/
def edgeOnlyBoard : BoardState where
  size := 1
  cells := [[0]]
  horizontalEdges := [[1], [0]]
  verticalEdges := [[0, 0]]

/-- The all-zero assignment. -/
def zeroAssign : Assign where
  cells := fun _ _ => 0
  hE := fun _ _ => 0
  vE := fun _ _ => 0

/-- **C2 counterexample** — `edgeOnlyBoard` has a nonzero edge entry, yet
the constraint set `solve`/`solveMultiple` assemble for it (with no
caller-supplied rules) is satisfied by the all-zero assignment, which
violates the given-edges rule: the driver does not union in a given-edges
rule. -/
theorem solve_assembles_no_givenEdges :
    assembledHold edgeOnlyBoard [] zeroAssign ∧
    ¬ givenEdgesSemRule edgeOnlyBoard zeroAssign := by
  constructor
  · intro r hr
    rw [show assembledRules [] = [givenValuesSemRule] from rfl,
      List.mem_singleton] at hr
    subst hr
    show GivenValuesRuleHolds edgeOnlyBoard zeroAssign.cells
    decide
  · show ¬ GivenEdgesRuleHolds edgeOnlyBoard zeroAssign.hE zeroAssign.vE
    decide

/-- **C2 (amended)** — For every input board, rule list and assignment,
the constraint set assembled by `solve` and `solveMultiple` holds exactly
when all caller-supplied rules hold and the implicit given-values rule
holds: the drivers union in only the given-values rule, never a
given-edges rule. -/
theorem solve_assembled_iff (B : BoardState) (rules : List SemRule) (a : Assign) :
    assembledHold B rules a ↔
      (∀ r ∈ rules, r B a) ∧ GivenValuesRuleHolds B a.cells := by
  unfold assembledHold assembledRules
  rw [List.forall_mem_append, List.forall_mem_singleton]
  rfl

/-- **C3 counterexample** — A `solveMultiple` invocation whose very first
`check()` reports `unknown` (so `unknown` arrives before any SAT result)
returns status `"unsat"`, not `"timeout"`. -/
theorem solveMultiple_unknown_not_timeout :
    (solveMultipleResult (fun _ => CheckResult.unknown) (fun _ => (0 : Int)) 1).status
        = "unsat" ∧
    (solveMultipleResult (fun _ => CheckResult.unknown) (fun _ => (0 : Int)) 1).status
        ≠ "timeout" := by
  constructor
  · rfl
  · decide

/-- **C3 (amended)** — When the external solver's `check()` reports
`unknown`, `solve` returns status `"timeout"`; but a `solveMultiple`
invocation whose first `check()` reports `unknown` (i.e. `unknown` before
any SAT result) returns status `"unsat"`. -/
theorem solve_unknown_timeout_solveMultiple_unsat :
    (∀ (α : Type) (x : α) (r : CheckResult), r = CheckResult.unknown →
        (solveResult r x).status = "timeout") ∧
    (∀ (α : Type) (extract : Nat → α) (check : Nat → CheckResult) (limit : Nat),
        check 0 = CheckResult.unknown →
        (solveMultipleResult check extract limit).status = "unsat") := by
  constructor
  · intro α x r h
    subst h
    rfl
  · intro α extract check limit h
    cases limit with
    | zero => rfl
    | succ n =>
      unfold solveMultipleResult collected
      simp [collectGo, h]

/-- Witness for the amended C3: both conclusions at concrete inputs. -/
theorem solve_unknown_timeout_witness :
    (solveResult CheckResult.unknown (0 : Int)).status = "timeout" ∧
    (solveMultipleResult (fun _ => CheckResult.unknown) (fun _ => (5 : Int)) 2).status
        = "unsat" :=
  ⟨solve_unknown_timeout_solveMultiple_unsat.1 Int 0 CheckResult.unknown rfl,
   solve_unknown_timeout_solveMultiple_unsat.2 Int (fun _ => (5 : Int))
     (fun _ => CheckResult.unknown) 2 rfl⟩

/-- **C9** — The driver's try/catch converts every thrown value into a
result with status `"error"` carrying the thrown value's message
(`error.message` for `Error` objects, `String(error)` otherwise), and a
normally produced result passes through unchanged; `solveDriver` is a
total function, so no exception ever reaches the caller. -/
theorem solveDriver_catches_all :
    ∀ (α : Type) (e : JsError) (r : SolverResultM α),
      (solveDriver (α := α) (Except.error e)).status = "error" ∧
      (solveDriver (α := α) (Except.error e)).error = some (errMessage e) ∧
      solveDriver (Except.ok r) = r :=
  fun _ _ _ => ⟨rfl, rfl, rfl⟩

/-- The enumeration loop of `solveMultiple` performs at most `fuel`
iterations, so it collects at most `fuel` solutions. -/
theorem collectGo_length_le {α : Type} (check : Nat → CheckResult)
    (extract : Nat → α) :
    ∀ fuel i, (collectGo check extract i fuel).length ≤ fuel := by
  intro fuel
  induction fuel with
  | zero => intro i; simp [collectGo]
  | succ n ih =>
    intro i
    unfold collectGo
    cases check i with
    | sat => simpa using ih (i + 1)
    | unsat => simp
    | unknown => simp

/-- **C10** — Whenever `solveMultiple` returns status `"sat"`, its
`solutions` field is present and non-empty with at most `limit` entries,
and its singular `solution` field equals the first element of
`solutions`. -/
theorem solveMultiple_sat_shape {α : Type} (check : Nat → CheckResult)
    (extract : Nat → α) (limit : Nat)
    (h : (solveMultipleResult check extract limit).status = "sat") :
    ∃ sols : List α,
      (solveMultipleResult check extract limit).solutions = some sols ∧
      sols ≠ [] ∧ sols.length ≤ limit ∧
      (solveMultipleResult check extract limit).solution = sols.head? := by
  by_cases hl : 0 < (collected check extract limit).length
  · refine ⟨collected check extract limit, ?_, ?_, ?_, ?_⟩
    · simp [solveMultipleResult, hl]
    · intro he
      rw [he] at hl
      simp at hl
    · exact collectGo_length_le check extract limit 0
    · simp [solveMultipleResult, hl]
  · exfalso
    unfold solveMultipleResult at h
    rw [if_neg hl] at h
    simp at h

/-- Witness for C10: a run whose single `check()` is SAT. -/
theorem solveMultiple_sat_shape_witness :
    (solveMultipleResult (fun _ => CheckResult.sat) (fun _ => (7 : Int)) 1).status
        = "sat" ∧
    ∃ sols : List Int,
      (solveMultipleResult (fun _ => CheckResult.sat) (fun _ => (7 : Int)) 1).solutions
          = some sols ∧
      sols ≠ [] ∧ sols.length ≤ 1 ∧
      (solveMultipleResult (fun _ => CheckResult.sat) (fun _ => (7 : Int)) 1).solution
          = sols.head? :=
  ⟨rfl, solveMultiple_sat_shape (fun _ => CheckResult.sat) (fun _ => (7 : Int)) 1 rfl⟩

instance (size : Nat) (m prev : Nat → Nat → Int) :
    Decidable (exclusionHolds size m prev) := by
  unfold exclusionHolds; infer_instance

/-- Element `i` of the `solveMultiple` enumeration loop's solution list is
the solution extracted from the model of check call `start + i`. -/
theorem collectGo_getD {α : Type} (check : Nat → CheckResult) (m : Nat → α)
    (d : α) :
    ∀ fuel start i, i < (collectGo check m start fuel).length →
      (collectGo check m start fuel).getD i d = m (start + i) := by
  intro fuel
  induction fuel with
  | zero =>
    intro start i h
    simp [collectGo] at h
  | succ n ih =>
    intro start i h
    rcases hc : check start with _ | _ | _ <;>
      simp only [collectGo, hc] at h ⊢
    · cases i with
      | zero => simp
      | succ k =>
        rw [List.getD_cons_succ, ih (start + 1) k (by simpa using h)]
        congr 1
        omega
    · simp at h
    · simp at h

/-- **C8** — Under soundness of the external solver (each model returned
by the `i`-th SAT check satisfies the exclusion constraints asserted
against every earlier solution), the solution list returned by
`solveMultiple` contains no two entries with identical cell matrices: any
two distinct entries differ at some cell of the grid. -/
theorem solveMultiple_solutions_distinct (size limit : Nat)
    (check : Nat → CheckResult) (models : Nat → Nat → Nat → Int)
    (hsound : ∀ i < (collected check models limit).length, ∀ j < i,
        exclusionHolds size (models i) (models j)) :
    ∀ i < (collected check models limit).length,
      ∀ j < (collected check models limit).length, i ≠ j →
        ∃ row < size, ∃ col < size,
          (collected check models limit).getD i (fun _ _ => 0) row col ≠
          (collected check models limit).getD j (fun _ _ => 0) row col := by
  intro i hi j hj hne
  unfold collected at hi hj ⊢
  rw [collectGo_getD check models _ limit 0 i hi,
    collectGo_getD check models _ limit 0 j hj, Nat.zero_add, Nat.zero_add]
  rcases Nat.lt_or_ge i j with hij | hge
  · obtain ⟨idx, hidx, hd⟩ := hsound j hj i hij
    have hs : 0 < size := by
      rcases Nat.eq_zero_or_pos size with h0 | h0
      · subst h0; simp at hidx
      · exact h0
    exact ⟨idx / size, (Nat.div_lt_iff_lt_mul hs).mpr hidx,
      idx % size, Nat.mod_lt idx hs, fun he => hd he.symm⟩
  · have hji : j < i := by omega
    obtain ⟨idx, hidx, hd⟩ := hsound i hi j hji
    have hs : 0 < size := by
      rcases Nat.eq_zero_or_pos size with h0 | h0
      · subst h0; simp at hidx
      · exact h0
    exact ⟨idx / size, (Nat.div_lt_iff_lt_mul hs).mpr hidx,
      idx % size, Nat.mod_lt idx hs, hd⟩

/-- Witness for C8: a two-solution run on a 1×1 grid whose models satisfy
the exclusion constraints; the two returned cell matrices differ. -/
theorem solveMultiple_solutions_distinct_witness :
    ∃ row < 1, ∃ col < 1,
      (collected (fun _ => CheckResult.sat) (fun i _ _ => (i : Int)) 2).getD 0
          (fun _ _ => 0) row col ≠
      (collected (fun _ => CheckResult.sat) (fun i _ _ => (i : Int)) 2).getD 1
          (fun _ _ => 0) row col :=
  solveMultiple_solutions_distinct 1 2 (fun _ => CheckResult.sat)
    (fun i _ _ => (i : Int)) (by decide) 0 (by decide) 1 (by decide) (by decide)

/-- A matrix of fresh variables mapped back through a model that assigns
every variable its original value yields the original matrix. -/
theorem mapIdx_map_model_roundtrip (m : List (List Int))
    (f : Nat → Nat → ZVar) (model : ZVar → Int)
    (h : ∀ r < m.length, ∀ c < rowLen m r, model (f r c) = matGet m r c) :
    (m.mapIdx fun r row => row.mapIdx fun c _ => f r c).map (List.map model)
      = m := by
  apply List.ext_getElem
  · simp
  · intro i h1 h2
    rw [List.getElem_map, List.getElem_mapIdx]
    apply List.ext_getElem
    · simp
    · intro c hc1 hc2
      rw [List.getElem_map, List.getElem_mapIdx]
      have hcc : c < rowLen m i := by
        unfold rowLen
        rw [List.getD_eq_getElem m [] h2]
        exact hc2
      rw [h i h2 c hcc, matGet, List.getD_eq_getElem m [] h2,
        List.getD_eq_getElem _ 0 hc2]

/-- **C7** — For every concrete board `B`, converting the symbolic board
`createBoardVariable B` back through `boardVariableToState` under a model
that assigns every cell and edge variable its original value in `B` yields
a board equal to `B`: an identity round trip over `size`, `cells`,
`horizontalEdges` and `verticalEdges`. -/
theorem boardVariable_roundtrip (B : BoardState) (model : ZVar → Int)
    (hc : ∀ r < B.cells.length, ∀ c < rowLen B.cells r,
        model (ZVar.cell r c) = matGet B.cells r c)
    (hh : ∀ r < B.horizontalEdges.length, ∀ c < rowLen B.horizontalEdges r,
        model (ZVar.hEdge r c) = matGet B.horizontalEdges r c)
    (hv : ∀ r < B.verticalEdges.length, ∀ c < rowLen B.verticalEdges r,
        model (ZVar.vEdge r c) = matGet B.verticalEdges r c) :
    boardVariableToState (createBoardVariable B) model = B := by
  unfold boardVariableToState createBoardVariable
  cases B with
  | mk size cells hEdges vEdges =>
    simp only [BoardState.mk.injEq]
    exact ⟨trivial, mapIdx_map_model_roundtrip cells _ model hc,
      mapIdx_map_model_roundtrip hEdges _ model hh,
      mapIdx_map_model_roundtrip vEdges _ model hv⟩

/-- A 1×1 board with a clue and two active edges, for the round-trip
witness. -/
def rtBoard : BoardState where
  size := 1
  cells := [[5]]
  horizontalEdges := [[1], [0]]
  verticalEdges := [[0, 1]]

/-- A model assigning every variable of `rtBoard`'s symbolic board its
original value. -/
def rtModel : ZVar → Int
  | .cell 0 0 => 5
  | .hEdge 0 0 => 1
  | .vEdge 0 1 => 1
  | _ => 0

/-- Witness for C7: the round trip at `rtBoard` under `rtModel`. -/
theorem boardVariable_roundtrip_witness :
    (∀ r < rtBoard.cells.length, ∀ c < rowLen rtBoard.cells r,
        rtModel (ZVar.cell r c) = matGet rtBoard.cells r c) ∧
    boardVariableToState (createBoardVariable rtBoard) rtModel = rtBoard :=
  ⟨by decide, boardVariable_roundtrip rtBoard rtModel (by decide) (by decide)
    (by decide)⟩
